import Mathlib

/-!
Shallow embedding of `zclist.py` (zero-copy list slices).

The backing sequence is a `List Int`; a `ZeroCopySlice` stores the backing
list together with the stored bounds `low` and `high` (Python ints, so
`Int`).  Fallible operations return `Except Err _`.  Raw subscripting of the
backing Python list (`self.__list[idx]`, `self.__list[idx] = x`) follows
Python semantics: a negative index wraps from the end, an index out of range
raises `IndexError`.
-/

/-- Error kinds raised by the zclist operations. -/
inductive Err where
  | typeError
  | indexError
  | valueError
deriving DecidableEq

/-- Dynamic Python values as far as the `ZeroCopySlice` constructor's
`isinstance` checks distinguish them: an int, a list of ints, or something
else (modelled by strings and `None`). -/
inductive PyVal where
  | vint (n : Int)
  | vlist (l : List Int)
  | vstr (s : String)
  | vnone
deriving DecidableEq

/-- State of a `ZeroCopySlice` object: the backing list `self.__list` and the
stored bounds `self.__low` and `self.__high`. -/
structure ZeroCopySlice where
  list : List Int
  low : Int
  high : Int
deriving DecidableEq

/-- Python list subscript read `l[i]`: a negative index wraps by adding
`len(l)`; an index out of range raises `IndexError`. -/
def pyGet (l : List Int) (i : Int) : Except Err Int :=
  let n : Int := l.length
  let phys := if i < 0 then n + i else i
  if 0 ≤ phys ∧ phys < n then
    match l.get? phys.toNat with
    | some v => .ok v
    | none => .error .indexError
  else .error .indexError

/-- Python list subscript write `l[i] = x`: a negative index wraps by adding
`len(l)`; an index out of range raises `IndexError` before any mutation. -/
def pySet (l : List Int) (i : Int) (x : Int) : Except Err (List Int) :=
  let n : Int := l.length
  let phys := if i < 0 then n + i else i
  if 0 ≤ phys ∧ phys < n then .ok (l.set phys.toNat x)
  else .error .indexError

namespace ZeroCopySlice

/-- Method `__readjust_bounds`: readjust `low` and `high` in case the backing
list has changed. -/
def readjustBounds (s : ZeroCopySlice) : ZeroCopySlice :=
  if s.low ≥ (s.list.length : Int) then { s with low := 0, high := 0 }
  else { s with high := min s.high (s.list.length : Int) }

/-- Method `__verify_bounds`: make sure `low` and `high` are within the range
of the slice. -/
def verifyBounds (s : ZeroCopySlice) (low high : Int) : Except Err Unit :=
  if ¬(s.low ≤ low ∧ low < s.high) then .error .indexError
  else if ¬(s.low ≤ high ∧ high ≤ s.high) then .error .indexError
  else .ok ()

/-- Method `__verify_index`: make sure `idx` is within the range of the
slice. -/
def verifyIndex (s : ZeroCopySlice) (idx : Int) : Except Err Unit :=
  if s.low ≤ idx ∧ idx < s.high then .ok () else .error .indexError

/-- Constructor `__init__(l, i, j)` on dynamic arguments, including the
`isinstance` type checks. -/
def init (l i j : PyVal) : Except Err ZeroCopySlice :=
  match l with
  | .vlist lst =>
    match i, j with
    | .vint iv, .vint jv =>
      let n : Int := lst.length
      let lo := if iv < 0 then n + iv else iv
      if lo ≥ n ∧ lo ≠ 0 then .error .indexError
      else
        let hi := if jv < 0 then n + jv else jv
        if hi > n then .error .indexError
        else .ok ⟨lst, lo, hi⟩
    | _, _ => .error .typeError
  | _ => .error .typeError

/-- Constructor applied to well-typed arguments, `ZeroCopySlice(lst, i, j)`. -/
def make (lst : List Int) (i j : Int) : Except Err ZeroCopySlice :=
  init (.vlist lst) (.vint i) (.vint j)

/-- Loop of `__repr__` over positions `i, i+1, ...` (`k` positions remain). -/
def reprFrom (l : List Int) : Nat → Int → String → Except Err String
  | 0, _, acc => .ok (acc ++ "]")
  | k+1, i, acc =>
    match pyGet l i with
    | .ok v => reprFrom l k (i + 1) (acc ++ ", " ++ toString v)
    | .error e => .error e

/-- Method `__repr__` (and `__str__`, which delegates to it). -/
def repr (s : ZeroCopySlice) : Except Err String :=
  let t := readjustBounds s
  if t.low ≥ t.high then .ok "[]"
  else
    match pyGet t.list t.low with
    | .ok v => reprFrom t.list (t.high - (t.low + 1)).toNat (t.low + 1) ("[" ++ toString v)
    | .error e => .error e

/-- Loop of `__contains__` over positions `i, i+1, ...` (`k` positions
remain). -/
def scanContains (l : List Int) (x : Int) : Nat → Int → Except Err Bool
  | 0, _ => .ok false
  | k+1, i =>
    match pyGet l i with
    | .ok v => if v = x then .ok true else scanContains l x k (i + 1)
    | .error e => .error e

/-- Method `__contains__(x)`. -/
def contains (s : ZeroCopySlice) (x : Int) : Except Err Bool :=
  let t := readjustBounds s
  scanContains t.list x (t.high - t.low).toNat t.low

/-- Method `__getitem__(i)`. -/
def getitem (s : ZeroCopySlice) (i : Int) : Except Err Int :=
  let t := readjustBounds s
  let idx := if i < 0 then t.high + i else t.low + i
  match t.verifyIndex idx with
  | .error e => .error e
  | .ok _ => pyGet t.list idx

/-- Method `__getslice__(i, j)`: creates another zero-copy slice over the same
backing list. -/
def getslice (s : ZeroCopySlice) (i j : Int) : Except Err ZeroCopySlice :=
  let t := readjustBounds s
  let lo := if i < 0 then t.high + i else t.low + i
  let hi := if j < 0 then t.high + j else t.low + j
  match t.verifyBounds lo hi with
  | .error e => .error e
  | .ok _ => make t.list lo hi

/-- Method `__len__`: the value the method returns (Python's `len` builtin
would additionally reject a negative value with `ValueError`). -/
def len (s : ZeroCopySlice) : Int :=
  let t := readjustBounds s
  t.high - t.low

/-- Method `__setitem__(i, x)`, returning both the outcome and the contents of
the backing list when the call returns (unchanged on every error path, since
every raise in the source happens before the single write). -/
def setitemFull (s : ZeroCopySlice) (i x : Int) : Except Err Unit × List Int :=
  let t := readjustBounds s
  let idx := if i < 0 then t.high + i else t.low + i
  match t.verifyIndex idx with
  | .error e => (.error e, s.list)
  | .ok _ =>
    match pySet t.list idx x with
    | .ok l2 => (.ok (), l2)
    | .error e => (.error e, s.list)

/-- Method `__setitem__(i, x)` viewed as a fallible function returning the new
backing-list contents. -/
def setitem (s : ZeroCopySlice) (i x : Int) : Except Err (List Int) :=
  match setitemFull s i x with
  | (.ok _, l2) => .ok l2
  | (.error e, _) => .error e

/-- Loop of `count` over positions `i, i+1, ...` (`k` positions remain),
carrying the accumulator. -/
def scanCount (l : List Int) (x : Int) : Nat → Int → Nat → Except Err Nat
  | 0, _, acc => .ok acc
  | k+1, i, acc =>
    match pyGet l i with
    | .ok v => scanCount l x k (i + 1) (if v = x then acc + 1 else acc)
    | .error e => .error e

/-- Method `count(x)`. -/
def count (s : ZeroCopySlice) (x : Int) : Except Err Nat :=
  let t := readjustBounds s
  scanCount t.list x (t.high - t.low).toNat t.low 0

/-- Loop of `index` over positions `i, i+1, ...` (`k` positions remain); on a
match returns the offset from `begin`. -/
def scanIndex (l : List Int) (x : Int) (begin : Int) : Nat → Int → Except Err Int
  | 0, _ => .error .valueError
  | k+1, i =>
    match pyGet l i with
    | .ok v => if v = x then .ok (i - begin) else scanIndex l x begin k (i + 1)
    | .error e => .error e

/-- Method `index(x, start, stop)`. -/
def index (s : ZeroCopySlice) (x : Int) (start stop : Option Int) : Except Err Int :=
  let t := readjustBounds s
  let begin := match start with
    | none => t.low
    | some a => if a < 0 then t.high + a else t.low + a
  let stopv := match stop with
    | none => t.high
    | some b => if b < 0 then t.high + b else t.low + b
  match t.verifyBounds begin stopv with
  | .error e => .error e
  | .ok _ => scanIndex t.list x begin (stopv - begin).toNat begin

end ZeroCopySlice

namespace ZeroCopyList

/-- Method `ZeroCopyList.__getslice__(i, j)`: returns
`ZeroCopySlice(self, i, j)` over this very container. -/
def getslice (l : List Int) (i j : Int) : Except Err ZeroCopySlice :=
  ZeroCopySlice.make l i j

end ZeroCopyList

/-- Physical (non-negative) position denoted by the Python index `i` into the
list `l`: negative indices wrap by adding the length. -/
def physOf (l : List Int) (i : Int) : Int :=
  if i < 0 then (l.length : Int) + i else i

/-- Test whether the backing element denoted (Python-style) by position `p`
exists and equals `x`. -/
def elemEq (l : List Int) (p : Int) (x : Int) : Bool :=
  match pyGet l p with
  | .ok v => v == x
  | .error _ => false

namespace ZeroCopySlice

lemma readjust_list (s : ZeroCopySlice) : (readjustBounds s).list = s.list := by
  unfold readjustBounds; split <;> rfl

lemma readjust_of_ge {s : ZeroCopySlice} (h : (s.list.length : Int) ≤ s.low) :
    readjustBounds s = ⟨s.list, 0, 0⟩ := by
  unfold readjustBounds
  rw [if_pos h]

lemma readjust_of_lt {s : ZeroCopySlice} (h : s.low < (s.list.length : Int)) :
    readjustBounds s = ⟨s.list, s.low, min s.high (s.list.length : Int)⟩ := by
  unfold readjustBounds
  rw [if_neg (by omega)]

lemma readjust_high_le (s : ZeroCopySlice) :
    (readjustBounds s).high ≤ (s.list.length : Int) := by
  rcases le_or_lt (s.list.length : Int) s.low with hc | hc
  · rw [readjust_of_ge hc]; dsimp only; omega
  · rw [readjust_of_lt hc]; dsimp only; omega

lemma window_nonpos {s : ZeroCopySlice} (h : s.high ≤ s.low) :
    (readjustBounds s).high ≤ (readjustBounds s).low := by
  rcases le_or_lt (s.list.length : Int) s.low with hc | hc
  · rw [readjust_of_ge hc]
  · rw [readjust_of_lt hc]; dsimp only; omega

lemma verifyBounds_pos {s : ZeroCopySlice} {lo hi : Int}
    (h : s.low ≤ lo ∧ lo < s.high ∧ s.low ≤ hi ∧ hi ≤ s.high) :
    verifyBounds s lo hi = .ok () := by
  unfold verifyBounds
  rw [if_neg (by tauto), if_neg (by tauto)]

lemma verifyBounds_neg {s : ZeroCopySlice} {lo hi : Int}
    (h : ¬(s.low ≤ lo ∧ lo < s.high ∧ s.low ≤ hi ∧ hi ≤ s.high)) :
    verifyBounds s lo hi = .error .indexError := by
  unfold verifyBounds
  by_cases h1 : s.low ≤ lo ∧ lo < s.high
  · rw [if_neg (by tauto), if_pos (by tauto)]
  · rw [if_pos h1]

lemma verifyIndex_pos {s : ZeroCopySlice} {idx : Int}
    (h : s.low ≤ idx ∧ idx < s.high) : verifyIndex s idx = .ok () := by
  unfold verifyIndex
  rw [if_pos h]

lemma verifyIndex_neg {s : ZeroCopySlice} {idx : Int}
    (h : ¬(s.low ≤ idx ∧ idx < s.high)) : verifyIndex s idx = .error .indexError := by
  unfold verifyIndex
  rw [if_neg h]

lemma window_nonpos_repr {s : ZeroCopySlice}
    (h : (readjustBounds s).high ≤ (readjustBounds s).low) :
    ZeroCopySlice.repr s = .ok "[]" := by
  unfold repr
  rw [if_pos h]

lemma window_nonpos_contains {s : ZeroCopySlice}
    (h : (readjustBounds s).high ≤ (readjustBounds s).low) (x : Int) :
    contains s x = .ok false := by
  unfold contains
  dsimp only
  have : ((readjustBounds s).high - (readjustBounds s).low).toNat = 0 := by omega
  rw [this]
  rfl

lemma window_nonpos_count {s : ZeroCopySlice}
    (h : (readjustBounds s).high ≤ (readjustBounds s).low) (x : Int) :
    count s x = .ok 0 := by
  unfold count
  dsimp only
  have : ((readjustBounds s).high - (readjustBounds s).low).toNat = 0 := by omega
  rw [this]
  rfl

lemma window_nonpos_getitem {s : ZeroCopySlice}
    (h : (readjustBounds s).high ≤ (readjustBounds s).low) (k : Int) :
    getitem s k = .error .indexError := by
  unfold getitem
  dsimp only
  rw [verifyIndex_neg (by split <;> omega)]

lemma window_nonpos_setitem {s : ZeroCopySlice}
    (h : (readjustBounds s).high ≤ (readjustBounds s).low) (k x : Int) :
    (setitemFull s k x).1 = .error .indexError := by
  unfold setitemFull
  dsimp only
  rw [verifyIndex_neg (by split <;> omega)]

lemma make_cases (lst : List Int) (i j : Int) :
    make lst i j =
      (if (if i < 0 then (lst.length : Int) + i else i) ≥ (lst.length : Int)
          ∧ (if i < 0 then (lst.length : Int) + i else i) ≠ 0 then .error .indexError
       else if (if j < 0 then (lst.length : Int) + j else j) > (lst.length : Int) then
         .error .indexError
       else .ok ⟨lst, if i < 0 then (lst.length : Int) + i else i,
                 if j < 0 then (lst.length : Int) + j else j⟩) := rfl

lemma make_ok_inv {lst : List Int} {i j : Int} {s : ZeroCopySlice}
    (h : make lst i j = .ok s) :
    s.list = lst ∧ s.low = (if i < 0 then (lst.length : Int) + i else i) ∧
    s.high = (if j < 0 then (lst.length : Int) + j else j) ∧
    s.high ≤ (lst.length : Int) ∧
    ¬((lst.length : Int) ≤ s.low ∧ s.low ≠ 0) := by
  obtain ⟨sl, slo, shi⟩ := s
  rw [make_cases] at h
  set a : Int := if i < 0 then (lst.length : Int) + i else i with ha
  set b : Int := if j < 0 then (lst.length : Int) + j else j with hb
  by_cases h1 : a ≥ (lst.length : Int) ∧ a ≠ 0
  · rw [if_pos h1] at h; exact absurd h (by simp)
  · rw [if_neg h1] at h
    by_cases h2 : b > (lst.length : Int)
    · rw [if_pos h2] at h; exact absurd h (by simp)
    · rw [if_neg h2] at h
      injection h with h3
      injection h3 with e1 e2 e3
      subst e1; subst e2; subst e3
      refine ⟨rfl, ha, hb, ?_, ?_⟩
      · show b ≤ (lst.length : Int)
        omega
      · show ¬((lst.length : Int) ≤ a ∧ a ≠ 0)
        omega

lemma make_isOk {lst : List Int} {lo hi : Int}
    (h1 : lo < (lst.length : Int)) (h2 : hi ≤ (lst.length : Int)) :
    ∃ v, make lst lo hi = .ok v := by
  rw [make_cases]
  rw [if_neg (by split <;> omega), if_neg (by split <;> omega)]
  exact ⟨_, rfl⟩

lemma make_ok_of_nonneg {lst : List Int} {lo hi : Int}
    (h0 : 0 ≤ lo) (h0' : 0 ≤ hi)
    (h1 : lo < (lst.length : Int)) (h2 : hi ≤ (lst.length : Int)) :
    make lst lo hi = .ok ⟨lst, lo, hi⟩ := by
  rw [make_cases]
  rw [if_neg (by split <;> omega), if_neg (by split <;> omega)]
  rw [if_neg (by omega), if_neg (by omega)]

end ZeroCopySlice

lemma pyGet_eq (l : List Int) (p : Int) :
    pyGet l p =
      (if 0 ≤ physOf l p ∧ physOf l p < (l.length : Int) then
        match l.get? (physOf l p).toNat with
        | some v => .ok v
        | none => .error .indexError
       else .error .indexError) := rfl

lemma pySet_eq (l : List Int) (p x : Int) :
    pySet l p x =
      (if 0 ≤ physOf l p ∧ physOf l p < (l.length : Int) then
        .ok (l.set (physOf l p).toNat x)
       else .error .indexError) := rfl

lemma physOf_of_nonneg {l : List Int} {p : Int} (hp : 0 ≤ p) : physOf l p = p := by
  unfold physOf
  rw [if_neg (by omega)]

lemma physOf_of_neg {l : List Int} {p : Int} (hp : p < 0) :
    physOf l p = (l.length : Int) + p := by
  unfold physOf
  rw [if_pos hp]

lemma physOf_nonneg_lt {l : List Int} {p : Int}
    (h1 : -(l.length : Int) ≤ p) (h2 : p < (l.length : Int)) :
    0 ≤ physOf l p ∧ physOf l p < (l.length : Int) := by
  unfold physOf
  split <;> omega

lemma pyGet_ok_iff_of_nonneg {l : List Int} {p : Int} {v : Int} (hp : 0 ≤ p) :
    pyGet l p = .ok v ↔ l.get? p.toNat = some v := by
  rw [pyGet_eq, physOf_of_nonneg hp]
  by_cases hlt : p < (l.length : Int)
  · rw [if_pos ⟨hp, hlt⟩]
    cases hg : l.get? p.toNat with
    | none => simp
    | some w => simp
  · rw [if_neg (by omega)]
    constructor
    · intro h; exact absurd h (by simp)
    · intro h
      exfalso
      have hlen : p.toNat < l.length := by
        by_contra hc
        rw [List.get?_eq_none.mpr (by omega)] at h
        exact absurd h (by simp)
      omega

lemma pyGet_error_of_lt {l : List Int} {p : Int} (hp : p < -(l.length : Int)) :
    pyGet l p = .error .indexError := by
  rw [pyGet_eq, physOf_of_neg (by omega), if_neg (by omega)]

lemma pyGet_ok_of_range {l : List Int} {p : Int}
    (h1 : -(l.length : Int) ≤ p) (h2 : p < (l.length : Int)) :
    ∃ v, pyGet l p = .ok v := by
  rw [pyGet_eq, if_pos (physOf_nonneg_lt h1 h2)]
  cases hg : l.get? (physOf l p).toNat with
  | none =>
    exfalso
    rw [List.get?_eq_none] at hg
    have := physOf_nonneg_lt h1 h2
    omega
  | some w => exact ⟨w, rfl⟩

lemma pyGet_ne_valueError (l : List Int) (p : Int) :
    pyGet l p ≠ .error .valueError := by
  rw [pyGet_eq]
  split
  · cases hg : l.get? (physOf l p).toNat with
    | none => simp
    | some w => simp
  · simp

lemma pySet_ok_inv {l : List Int} {p x : Int} {l2 : List Int}
    (h : pySet l p x = .ok l2) :
    0 ≤ physOf l p ∧ physOf l p < (l.length : Int) ∧
    l2 = l.set (physOf l p).toNat x := by
  rw [pySet_eq] at h
  by_cases hc : 0 ≤ physOf l p ∧ physOf l p < (l.length : Int)
  · rw [if_pos hc] at h
    injection h with h2
    exact ⟨hc.1, hc.2, h2.symm⟩
  · rw [if_neg hc] at h
    exact absurd h (by simp)

lemma ZeroCopySlice.len_eq (s : ZeroCopySlice) :
    ZeroCopySlice.len s = (readjustBounds s).high - (readjustBounds s).low := rfl

/-- Claim C1 (counterexample): `View(backing, 7, 4)` over a 10-element backing
list is constructed without error, but `len()` then returns `-3`, not `0` as
the claim states. -/
theorem low_gt_high_len_counterexample :
    ZeroCopySlice.make [0,1,2,3,4,5,6,7,8,9] 7 4 =
      .ok ⟨[0,1,2,3,4,5,6,7,8,9], 7, 4⟩ ∧
    ZeroCopySlice.len ⟨[0,1,2,3,4,5,6,7,8,9], 7, 4⟩ = -3 ∧
    ZeroCopySlice.len ⟨[0,1,2,3,4,5,6,7,8,9], 7, 4⟩ ≠ 0 :=
  ⟨rfl, rfl, by decide⟩

/-- Claim C1 (amended): when construction succeeds with resolved bounds
`low > high`, every subsequent access other than `len()` treats the view as
empty — rendering yields `[]`, membership and count find nothing, and every
element access (read or write) fails with `IndexError`-kind — while `len()`
returns the nonpositive value `high − low` after re-adjustment, which is `0`
only in the collapsing case `low ≥ length(backing)` and negative otherwise. -/
theorem low_gt_high_behaves_empty_except_len
    (lst : List Int) (i j : Int) (s : ZeroCopySlice)
    (hmk : ZeroCopySlice.make lst i j = .ok s) (hlt : s.high < s.low) :
    ZeroCopySlice.repr s = .ok "[]" ∧
    (∀ x, ZeroCopySlice.contains s x = .ok false) ∧
    (∀ x, ZeroCopySlice.count s x = .ok 0) ∧
    (∀ k, ZeroCopySlice.getitem s k = .error .indexError) ∧
    (∀ k x, (ZeroCopySlice.setitemFull s k x).1 = .error .indexError) ∧
    ZeroCopySlice.len s ≤ 0 ∧
    (ZeroCopySlice.len s = 0 ↔ (s.list.length : Int) ≤ s.low) := by
  obtain ⟨hl, hlo, hhi, hle, hnf⟩ := ZeroCopySlice.make_ok_inv hmk
  have hle' : s.high ≤ (s.list.length : Int) := by rw [hl]; exact hle
  have hw := ZeroCopySlice.window_nonpos hlt.le
  refine ⟨ZeroCopySlice.window_nonpos_repr hw,
    fun x => ZeroCopySlice.window_nonpos_contains hw x,
    fun x => ZeroCopySlice.window_nonpos_count hw x,
    fun k => ZeroCopySlice.window_nonpos_getitem hw k,
    fun k x => ZeroCopySlice.window_nonpos_setitem hw k x, ?_, ?_⟩
  all_goals
    rw [ZeroCopySlice.len_eq]
    rcases le_or_lt (s.list.length : Int) s.low with hc | hc
  · rw [ZeroCopySlice.readjust_of_ge hc]; dsimp only; omega
  · rw [ZeroCopySlice.readjust_of_lt hc]; dsimp only; omega
  · rw [ZeroCopySlice.readjust_of_ge hc]; dsimp only; omega
  · rw [ZeroCopySlice.readjust_of_lt hc]; dsimp only; omega

/-- Witness for the amended claim C1 at `View([0..9], 7, 4)`. -/
theorem low_gt_high_behaves_empty_except_len_witness :
    ZeroCopySlice.repr ⟨[0,1,2,3,4,5,6,7,8,9], 7, 4⟩ = .ok "[]" ∧
    ZeroCopySlice.getitem ⟨[0,1,2,3,4,5,6,7,8,9], 7, 4⟩ 0 = .error .indexError :=
  ⟨(low_gt_high_behaves_empty_except_len [0,1,2,3,4,5,6,7,8,9] 7 4
      ⟨[0,1,2,3,4,5,6,7,8,9], 7, 4⟩ rfl (by decide)).1,
   (low_gt_high_behaves_empty_except_len [0,1,2,3,4,5,6,7,8,9] 7 4
      ⟨[0,1,2,3,4,5,6,7,8,9], 7, 4⟩ rfl (by decide)).2.2.2.1 0⟩

/-- Claim C2: shrink invariant — once the backing list's length is at most the
stored `low`, re-adjustment collapses the window to `low = high = 0`, so `len`
is `0` and every get or set at any integer index fails with `IndexError`-kind;
when instead `low` is still below the backing length, re-adjustment keeps
`low` and only clips `high` to `min high (length backing)`, never widening the
window. -/
theorem shrink_invariant (s : ZeroCopySlice) :
    ((s.list.length : Int) ≤ s.low →
      ZeroCopySlice.readjustBounds s = ⟨s.list, 0, 0⟩ ∧
      ZeroCopySlice.len s = 0 ∧
      (∀ i, ZeroCopySlice.getitem s i = .error .indexError) ∧
      (∀ i x, (ZeroCopySlice.setitemFull s i x).1 = .error .indexError)) ∧
    (s.low < (s.list.length : Int) →
      ZeroCopySlice.readjustBounds s =
        ⟨s.list, s.low, min s.high (s.list.length : Int)⟩ ∧
      (ZeroCopySlice.readjustBounds s).high ≤ s.high ∧
      (ZeroCopySlice.readjustBounds s).low = s.low) := by
  constructor
  · intro h
    have hco := ZeroCopySlice.readjust_of_ge h
    have hw : (ZeroCopySlice.readjustBounds s).high ≤
        (ZeroCopySlice.readjustBounds s).low := by
      rw [hco]
    refine ⟨hco, ?_, fun i => ZeroCopySlice.window_nonpos_getitem hw i,
      fun i x => ZeroCopySlice.window_nonpos_setitem hw i x⟩
    rw [ZeroCopySlice.len_eq, hco]
    rfl
  · intro h
    have hco := ZeroCopySlice.readjust_of_lt h
    refine ⟨hco, ?_, ?_⟩
    · rw [hco]; dsimp only; omega
    · rw [hco]

/-- Witness for claim C2 at the shrunken backing `[0,1]` with stored bounds
`(5, 7)` and at the backing `[0,1,2]` with stored bounds `(1, 5)`. -/
theorem shrink_invariant_witness :
    ZeroCopySlice.len ⟨[0,1], 5, 7⟩ = 0 ∧
    ZeroCopySlice.getitem ⟨[0,1], 5, 7⟩ 0 = .error .indexError ∧
    ZeroCopySlice.readjustBounds ⟨[0,1,2], 1, 5⟩ = ⟨[0,1,2], 1, 3⟩ :=
  ⟨((shrink_invariant ⟨[0,1], 5, 7⟩).1 (by decide)).2.1,
   ((shrink_invariant ⟨[0,1], 5, 7⟩).1 (by decide)).2.2.1 0,
   by
     have h := ((shrink_invariant ⟨[0,1,2], 1, 5⟩).2 (by decide)).1
     rw [h]
     decide⟩

/-- Claim C8: atomicity on error — a failing `__setitem__` returns with the
backing list unchanged; in particular when the resolved index falls outside
`[low, high)` after re-adjustment, the call fails with `IndexError`-kind and
no mutation of the backing list occurs. -/
theorem setitem_atomic (s : ZeroCopySlice) (i x : Int) :
    (∀ e, (ZeroCopySlice.setitemFull s i x).1 = .error e →
      (ZeroCopySlice.setitemFull s i x).2 = s.list) ∧
    (¬((ZeroCopySlice.readjustBounds s).low ≤
         (if i < 0 then (ZeroCopySlice.readjustBounds s).high + i
          else (ZeroCopySlice.readjustBounds s).low + i) ∧
       (if i < 0 then (ZeroCopySlice.readjustBounds s).high + i
        else (ZeroCopySlice.readjustBounds s).low + i) <
         (ZeroCopySlice.readjustBounds s).high) →
      ZeroCopySlice.setitemFull s i x = (.error .indexError, s.list)) := by
  set t := ZeroCopySlice.readjustBounds s with ht
  set idx := if i < 0 then t.high + i else t.low + i with hidx
  have hsf : ZeroCopySlice.setitemFull s i x =
      (match t.verifyIndex idx with
       | .error e => (.error e, s.list)
       | .ok _ =>
         match pySet t.list idx x with
         | .ok l2 => (.ok (), l2)
         | .error e => (.error e, s.list)) := rfl
  constructor
  · intro e he
    rw [hsf] at he ⊢
    cases hv : t.verifyIndex idx with
    | error e2 => rfl
    | ok u =>
      cases hp : pySet t.list idx x with
      | ok l2 => rw [hp, hv] at he; simp at he
      | error e2 => rfl
  · intro hc
    rw [hsf, ZeroCopySlice.verifyIndex_neg hc]

/-- Witness for claim C8: `s[10] = 23` on `View([0..9], 4, 7)` fails with
`IndexError` and leaves the backing list unchanged. -/
theorem setitem_atomic_witness :
    ZeroCopySlice.setitemFull ⟨[0,1,2,3,4,5,6,7,8,9], 4, 7⟩ 10 23 =
      (.error .indexError, [0,1,2,3,4,5,6,7,8,9]) :=
  (setitem_atomic ⟨[0,1,2,3,4,5,6,7,8,9], 4, 7⟩ 10 23).2 (by decide)

lemma ZeroCopySlice.getslice_eq (s : ZeroCopySlice) (i j : Int) :
    ZeroCopySlice.getslice s i j =
      (match (readjustBounds s).verifyBounds
          (if i < 0 then (readjustBounds s).high + i else (readjustBounds s).low + i)
          (if j < 0 then (readjustBounds s).high + j else (readjustBounds s).low + j) with
       | .error e => .error e
       | .ok _ =>
         make (readjustBounds s).list
           (if i < 0 then (readjustBounds s).high + i else (readjustBounds s).low + i)
           (if j < 0 then (readjustBounds s).high + j else (readjustBounds s).low + j)) := rfl

/-- Claim C3: construction — a negative bound is first resolved by adding the
backing length; with well-typed arguments construction fails with
`IndexError`-kind iff the resolved low is `≥ length(backing)` and not exactly
`0` or the resolved high is `> length(backing)`, and otherwise succeeds with
exactly the resolved bounds; `View([], 0, 0)` succeeds with length `0`,
`View([], 1, 1)` fails with `IndexError`-kind, and a non-list backing or a
non-integer bound fails with `TypeError`-kind. -/
theorem construction_spec (lst : List Int) (i j : Int) (lv iv jv : PyVal) :
    (ZeroCopySlice.make lst i j = .error .indexError ↔
      (((lst.length : Int) ≤ (if i < 0 then (lst.length : Int) + i else i) ∧
          (if i < 0 then (lst.length : Int) + i else i) ≠ 0) ∨
        (lst.length : Int) < (if j < 0 then (lst.length : Int) + j else j))) ∧
    (¬((((lst.length : Int) ≤ (if i < 0 then (lst.length : Int) + i else i) ∧
          (if i < 0 then (lst.length : Int) + i else i) ≠ 0) ∨
        (lst.length : Int) < (if j < 0 then (lst.length : Int) + j else j))) →
      ZeroCopySlice.make lst i j =
        .ok ⟨lst, if i < 0 then (lst.length : Int) + i else i,
             if j < 0 then (lst.length : Int) + j else j⟩) ∧
    (ZeroCopySlice.init lv iv jv = .error .typeError ↔
      ¬((∃ l2, lv = .vlist l2) ∧ (∃ a, iv = .vint a) ∧ (∃ b, jv = .vint b))) ∧
    ZeroCopySlice.make ([] : List Int) 0 0 = .ok ⟨[], 0, 0⟩ ∧
    ZeroCopySlice.len ⟨[], 0, 0⟩ = 0 ∧
    ZeroCopySlice.make ([] : List Int) 1 1 = .error .indexError := by
  rw [ZeroCopySlice.make_cases]
  set a : Int := if i < 0 then (lst.length : Int) + i else i with ha
  set b : Int := if j < 0 then (lst.length : Int) + j else j with hb
  refine ⟨?_, ?_, ?_, rfl, rfl, rfl⟩
  · by_cases h1 : a ≥ (lst.length : Int) ∧ a ≠ 0
    · rw [if_pos h1]
      exact ⟨fun _ => Or.inl ⟨h1.1, h1.2⟩, fun _ => rfl⟩
    · rw [if_neg h1]
      by_cases h2 : b > (lst.length : Int)
      · rw [if_pos h2]
        exact ⟨fun _ => Or.inr h2, fun _ => rfl⟩
      · rw [if_neg h2]
        exact ⟨fun h => absurd h (by simp), fun h => absurd h (by omega)⟩
  · intro hnc
    rw [if_neg (by omega), if_neg (by omega)]
  · cases lv <;> cases iv <;> cases jv <;>
      first
        | (simp [ZeroCopySlice.init]; done)
        | (simp only [ZeroCopySlice.init]; split_ifs <;> simp)

/-- Witness for claim C3: `View([0,1], 0, 5)` fails with `IndexError` because
the resolved high bound exceeds the length, while `View([0,1], -1, 2)`
succeeds with resolved bounds `(1, 2)`. -/
theorem construction_spec_witness :
    ZeroCopySlice.make [0,1] 0 5 = .error .indexError ∧
    ZeroCopySlice.make [0,1] (-1) 2 = .ok ⟨[0,1], 1, 2⟩ :=
  ⟨(construction_spec [0,1] 0 5 .vnone .vnone .vnone).1.mpr (by decide),
   (construction_spec [0,1] (-1) 2 .vnone .vnone .vnone).2.1 (by decide)⟩

/-- Claim C4: subview validation — after re-adjustment and resolution of
`(i, j)` to absolute bounds `(begin, end)`, `subview` succeeds iff
`low ≤ begin < high` and `low ≤ end ≤ high`, failing with `IndexError`-kind
otherwise; in particular for a non-empty view the boundary call
`subview(len, len)` fails with `IndexError`-kind. -/
theorem subview_validation (s : ZeroCopySlice) (i j : Int) :
    ((∃ v, ZeroCopySlice.getslice s i j = .ok v) ↔
      ((ZeroCopySlice.readjustBounds s).low ≤
          (if i < 0 then (ZeroCopySlice.readjustBounds s).high + i
           else (ZeroCopySlice.readjustBounds s).low + i) ∧
        (if i < 0 then (ZeroCopySlice.readjustBounds s).high + i
         else (ZeroCopySlice.readjustBounds s).low + i) <
          (ZeroCopySlice.readjustBounds s).high ∧
        (ZeroCopySlice.readjustBounds s).low ≤
          (if j < 0 then (ZeroCopySlice.readjustBounds s).high + j
           else (ZeroCopySlice.readjustBounds s).low + j) ∧
        (if j < 0 then (ZeroCopySlice.readjustBounds s).high + j
         else (ZeroCopySlice.readjustBounds s).low + j) ≤
          (ZeroCopySlice.readjustBounds s).high)) ∧
    (¬((ZeroCopySlice.readjustBounds s).low ≤
          (if i < 0 then (ZeroCopySlice.readjustBounds s).high + i
           else (ZeroCopySlice.readjustBounds s).low + i) ∧
        (if i < 0 then (ZeroCopySlice.readjustBounds s).high + i
         else (ZeroCopySlice.readjustBounds s).low + i) <
          (ZeroCopySlice.readjustBounds s).high ∧
        (ZeroCopySlice.readjustBounds s).low ≤
          (if j < 0 then (ZeroCopySlice.readjustBounds s).high + j
           else (ZeroCopySlice.readjustBounds s).low + j) ∧
        (if j < 0 then (ZeroCopySlice.readjustBounds s).high + j
         else (ZeroCopySlice.readjustBounds s).low + j) ≤
          (ZeroCopySlice.readjustBounds s).high) →
      ZeroCopySlice.getslice s i j = .error .indexError) ∧
    (0 < ZeroCopySlice.len s →
      ZeroCopySlice.getslice s (ZeroCopySlice.len s) (ZeroCopySlice.len s) =
        .error .indexError) := by
  have hhigh : (ZeroCopySlice.readjustBounds s).high ≤ (s.list.length : Int) :=
    ZeroCopySlice.readjust_high_le s
  have hlen2 : (((ZeroCopySlice.readjustBounds s).list.length : Nat) : Int) =
      (s.list.length : Int) := by rw [ZeroCopySlice.readjust_list]
  refine ⟨⟨?_, ?_⟩, ?_, ?_⟩
  · rintro ⟨v, hv⟩
    by_contra hc
    rw [ZeroCopySlice.getslice_eq, ZeroCopySlice.verifyBounds_neg hc] at hv
    exact absurd hv (by simp)
  · rintro ⟨hb1, hb2, he1, he2⟩
    rw [ZeroCopySlice.getslice_eq, ZeroCopySlice.verifyBounds_pos ⟨hb1, hb2, he1, he2⟩]
    exact ZeroCopySlice.make_isOk (by omega) (by omega)
  · intro hc
    rw [ZeroCopySlice.getslice_eq, ZeroCopySlice.verifyBounds_neg hc]
  · intro hp
    have hlen := ZeroCopySlice.len_eq s
    rw [ZeroCopySlice.getslice_eq]
    rw [if_neg (by omega)]
    rw [ZeroCopySlice.verifyBounds_neg (by omega)]

/-- Witness for claim C4: `ZCS([0..9], 1, 9)[2:10]` fails with `IndexError`,
and on the non-empty `ZCS([0..9], 4, 7)` the boundary call `subview(3, 3)`
fails with `IndexError`. -/
theorem subview_validation_witness :
    ZeroCopySlice.getslice ⟨[0,1,2,3,4,5,6,7,8,9], 1, 9⟩ 2 10 = .error .indexError ∧
    ZeroCopySlice.getslice ⟨[0,1,2,3,4,5,6,7,8,9], 4, 7⟩ 3 3 = .error .indexError :=
  ⟨(subview_validation ⟨[0,1,2,3,4,5,6,7,8,9], 1, 9⟩ 2 10).2.1 (by decide),
   (subview_validation ⟨[0,1,2,3,4,5,6,7,8,9], 4, 7⟩ 0 0).2.2 (by decide)⟩

lemma ZeroCopySlice.getitem_eq (s : ZeroCopySlice) (i : Int) :
    ZeroCopySlice.getitem s i =
      (match (readjustBounds s).verifyIndex
          (if i < 0 then (readjustBounds s).high + i else (readjustBounds s).low + i) with
       | .error e => .error e
       | .ok _ =>
         pyGet (readjustBounds s).list
           (if i < 0 then (readjustBounds s).high + i else (readjustBounds s).low + i)) := rfl

lemma ZeroCopySlice.getitem_nonneg {s : ZeroCopySlice} {k y : Int} (hk : 0 ≤ k) :
    ZeroCopySlice.getitem s k = .ok y ↔
      ((readjustBounds s).low + k < (readjustBounds s).high ∧
        pyGet (readjustBounds s).list ((readjustBounds s).low + k) = .ok y) := by
  rw [ZeroCopySlice.getitem_eq, if_neg (by omega)]
  by_cases hc : (readjustBounds s).low ≤ (readjustBounds s).low + k ∧
      (readjustBounds s).low + k < (readjustBounds s).high
  · rw [ZeroCopySlice.verifyIndex_pos hc]
    exact ⟨fun h => ⟨hc.2, h⟩, fun h => h.2⟩
  · rw [ZeroCopySlice.verifyIndex_neg hc]
    constructor
    · intro h; exact absurd h (by simp)
    · intro h; exfalso; omega

lemma ZeroCopySlice.view_reads_at {w : ZeroCopySlice} {p : Int} {x : Int}
    (hp : 0 ≤ p)
    (hlo : (readjustBounds w).low ≤ p) (hhi : p < (readjustBounds w).high)
    (hv : w.list.get? p.toNat = some x) :
    ZeroCopySlice.getitem w (p - (readjustBounds w).low) = .ok x := by
  rw [ZeroCopySlice.getitem_eq, if_neg (by omega)]
  have harg : (readjustBounds w).low + (p - (readjustBounds w).low) = p := by ring
  rw [harg]
  rw [ZeroCopySlice.verifyIndex_pos ⟨hlo, hhi⟩]
  rw [ZeroCopySlice.readjust_list]
  exact (pyGet_ok_iff_of_nonneg hp).mpr hv

lemma ZeroCopySlice.setitem_ok_inv {s : ZeroCopySlice} {k x : Int} {l2 : List Int}
    (h : ZeroCopySlice.setitem s k x = .ok l2) :
    ZeroCopySlice.setitemFull s k x = (.ok (), l2) := by
  unfold ZeroCopySlice.setitem at h
  cases hf : ZeroCopySlice.setitemFull s k x with
  | mk fst snd =>
    rw [hf] at h
    cases fst with
    | ok u =>
      cases u
      injection h with h2
      rw [h2]
    | error e => exact absurd h (by simp)

lemma ZeroCopySlice.setitemFull_ok_inv {s : ZeroCopySlice} {k x : Int} {l2 : List Int}
    (hk : 0 ≤ k) (h : ZeroCopySlice.setitemFull s k x = (.ok (), l2)) :
    s.low < (s.list.length : Int) ∧
    s.low + k < (ZeroCopySlice.readjustBounds s).high ∧
    pySet s.list (s.low + k) x = .ok l2 := by
  have hsf : ZeroCopySlice.setitemFull s k x =
      (match (readjustBounds s).verifyIndex
          (if k < 0 then (readjustBounds s).high + k else (readjustBounds s).low + k) with
       | .error e => (.error e, s.list)
       | .ok _ =>
         match pySet (readjustBounds s).list
             (if k < 0 then (readjustBounds s).high + k else (readjustBounds s).low + k) x with
         | .ok l3 => (.ok (), l3)
         | .error e => (.error e, s.list)) := rfl
  rw [hsf, if_neg (by omega)] at h
  by_cases hcol : (s.list.length : Int) ≤ s.low
  · rw [ZeroCopySlice.readjust_of_ge hcol] at h
    rw [ZeroCopySlice.verifyIndex_neg (by dsimp only; omega)] at h
    exact absurd h (by simp)
  · push_neg at hcol
    have hro := ZeroCopySlice.readjust_of_lt hcol
    rw [hro] at h
    dsimp only at h
    by_cases hvc : s.low ≤ s.low + k ∧ s.low + k < min s.high (s.list.length : Int)
    · rw [ZeroCopySlice.verifyIndex_pos
        (s := ⟨s.list, s.low, min s.high (s.list.length : Int)⟩) hvc] at h
      cases hp : pySet s.list (s.low + k) x with
      | ok l3 =>
        rw [hp] at h
        have h3 : l3 = l2 := by
          have := congrArg Prod.snd h
          simpa using this
        refine ⟨hcol, ?_, ?_⟩
        · rw [hro]; dsimp only; exact hvc.2
        · rw [h3]
      | error e =>
        rw [hp] at h
        exact absurd h (by simp)
    · rw [ZeroCopySlice.verifyIndex_neg
        (s := ⟨s.list, s.low, min s.high (s.list.length : Int)⟩) hvc] at h
      exact absurd h (by simp)

lemma ZeroCopySlice.setitem_writes {s : ZeroCopySlice} {k x : Int} {l2 : List Int}
    (hk : 0 ≤ k) (h : ZeroCopySlice.setitem s k x = .ok l2) :
    0 ≤ physOf s.list (s.low + k) ∧
    physOf s.list (s.low + k) < (s.list.length : Int) ∧
    l2 = s.list.set (physOf s.list (s.low + k)).toNat x := by
  obtain ⟨hlow, hin, hset⟩ :=
    ZeroCopySlice.setitemFull_ok_inv hk (ZeroCopySlice.setitem_ok_inv h)
  exact pySet_ok_inv hset

lemma ZeroCopySlice.setitem_get_back {s : ZeroCopySlice} {k x : Int} {l2 : List Int}
    (hk : 0 ≤ k) (h : ZeroCopySlice.setitem s k x = .ok l2) :
    pyGet l2 (s.low + k) = .ok x := by
  obtain ⟨hp0, hp1, hps⟩ := ZeroCopySlice.setitem_writes hk h
  have hlen : l2.length = s.list.length := by rw [hps]; exact List.length_set ..
  have hphys : physOf l2 (s.low + k) = physOf s.list (s.low + k) := by
    unfold physOf; rw [hlen]
  have hqlt : (physOf s.list (s.low + k)).toNat < s.list.length := by omega
  rw [pyGet_eq, hphys, if_pos ⟨hp0, by omega⟩]
  rw [hps, List.get?_set_eq_of_lt _ hqlt]

/-- Claim C5 (counterexample): over the backing `[0,1,2]`, the view with
stored bounds `(-2, 2)` is constructible through the public constructor as
`View([0,1,2], -5, 2)`; for `subview(0, 2)` the resolved absolute begin bound
is `low + 0 = -2`, yet the returned view's low bound is `1`, not `-2` — the
constructor re-resolves the negative absolute bound relative to the backing
length. -/
theorem subview_bounds_counterexample :
    ZeroCopySlice.make [0,1,2] (-5) 2 = .ok ⟨[0,1,2], -2, 2⟩ ∧
    (ZeroCopySlice.readjustBounds ⟨[0,1,2], -2, 2⟩).low + 0 = -2 ∧
    ZeroCopySlice.getslice ⟨[0,1,2], -2, 2⟩ 0 2 = .ok ⟨[0,1,2], 1, 0⟩ ∧
    (1 : Int) ≠ -2 :=
  ⟨rfl, rfl, rfl, by decide⟩

/-- Claim C5 (amended): for every view whose re-adjusted low bound is
non-negative and every non-negative `(i, j)` accepted by `subview`, the result
is a new view over the same backing list with exactly the resolved absolute
bounds `(low + i, low + j)`, and reading the subview at any valid
non-negative `k` agrees with reading the parent at `i + k`. -/
theorem subview_composition
    (s : ZeroCopySlice) (i j : Int) (v : ZeroCopySlice)
    (hi : 0 ≤ i) (hj : 0 ≤ j) (hlow : 0 ≤ (ZeroCopySlice.readjustBounds s).low)
    (h : ZeroCopySlice.getslice s i j = .ok v) :
    v.list = s.list ∧
    v.low = (ZeroCopySlice.readjustBounds s).low + i ∧
    v.high = (ZeroCopySlice.readjustBounds s).low + j ∧
    (∀ k y, 0 ≤ k → ZeroCopySlice.getitem v k = .ok y →
      ZeroCopySlice.getitem s (i + k) = .ok y) := by
  have hhigh := ZeroCopySlice.readjust_high_le s
  have hlist := ZeroCopySlice.readjust_list s
  have hlen2 : ((ZeroCopySlice.readjustBounds s).list.length : Int) =
      (s.list.length : Int) := by rw [hlist]
  rw [ZeroCopySlice.getslice_eq, if_neg (by omega), if_neg (by omega)] at h
  by_cases hvc : (ZeroCopySlice.readjustBounds s).low ≤
        (ZeroCopySlice.readjustBounds s).low + i ∧
      (ZeroCopySlice.readjustBounds s).low + i < (ZeroCopySlice.readjustBounds s).high ∧
      (ZeroCopySlice.readjustBounds s).low ≤ (ZeroCopySlice.readjustBounds s).low + j ∧
      (ZeroCopySlice.readjustBounds s).low + j ≤ (ZeroCopySlice.readjustBounds s).high
  swap
  · rw [ZeroCopySlice.verifyBounds_neg hvc] at h
    exact absurd h (by simp)
  · rw [ZeroCopySlice.verifyBounds_pos hvc] at h
    obtain ⟨hb1, hb2, he1, he2⟩ := hvc
    replace h : ZeroCopySlice.make (ZeroCopySlice.readjustBounds s).list
        ((ZeroCopySlice.readjustBounds s).low + i)
        ((ZeroCopySlice.readjustBounds s).low + j) = .ok v := h
    rw [ZeroCopySlice.make_ok_of_nonneg (by omega) (by omega) (by omega) (by omega)] at h
    injection h with h2
    subst h2
    have hrv : ZeroCopySlice.readjustBounds
        ⟨(ZeroCopySlice.readjustBounds s).list,
         (ZeroCopySlice.readjustBounds s).low + i,
         (ZeroCopySlice.readjustBounds s).low + j⟩ =
        ⟨(ZeroCopySlice.readjustBounds s).list,
         (ZeroCopySlice.readjustBounds s).low + i,
         (ZeroCopySlice.readjustBounds s).low + j⟩ := by
      rw [ZeroCopySlice.readjust_of_lt (by dsimp only; omega)]
      dsimp only
      simp only [ZeroCopySlice.mk.injEq]
      exact ⟨trivial, trivial, by omega⟩
    refine ⟨hlist, rfl, rfl, ?_⟩
    intro k y hk hky
    rw [ZeroCopySlice.getitem_nonneg hk, hrv] at hky
    dsimp only at hky
    obtain ⟨hky1, hky2⟩ := hky
    rw [ZeroCopySlice.getitem_nonneg (by omega)]
    constructor
    · omega
    · have harg : (ZeroCopySlice.readjustBounds s).low + (i + k) =
          (ZeroCopySlice.readjustBounds s).low + i + k := by ring
      rw [harg]
      exact hky2

/-- Witness for the amended claim C5: `ZCS([0..9], 4, 7).subview(1, 3)` is the
view with bounds `(5, 7)` over the same backing list, and its element `0`
equals the parent's element `1 + 0 = 1`, namely `5`. -/
theorem subview_composition_witness :
    (⟨[0,1,2,3,4,5,6,7,8,9], 5, 7⟩ : ZeroCopySlice).list = [0,1,2,3,4,5,6,7,8,9] ∧
    ZeroCopySlice.getitem ⟨[0,1,2,3,4,5,6,7,8,9], 4, 7⟩ (1 + 0) = .ok 5 :=
  ⟨(subview_composition ⟨[0,1,2,3,4,5,6,7,8,9], 4, 7⟩ 1 3 ⟨[0,1,2,3,4,5,6,7,8,9], 5, 7⟩
      (by decide) (by decide) (by decide) rfl).1,
   (subview_composition ⟨[0,1,2,3,4,5,6,7,8,9], 4, 7⟩ 1 3 ⟨[0,1,2,3,4,5,6,7,8,9], 5, 7⟩
      (by decide) (by decide) (by decide) rfl).2.2.2 0 5 (by decide) rfl⟩

/-- Claim C6: write-through — after a successful `v.set(k, x)` with
non-negative `k`, the backing list holds `x` at absolute position
`v.low + k`, every other physical position is unchanged, and the write is
visible through any view over the updated backing list whose re-adjusted
window contains that absolute position. -/
theorem set_write_through (s : ZeroCopySlice) (k x : Int) (l2 : List Int)
    (hk : 0 ≤ k) (h : ZeroCopySlice.setitem s k x = .ok l2) :
    pyGet l2 (s.low + k) = .ok x ∧
    l2.length = s.list.length ∧
    (∀ m : Nat, (m : Int) ≠ physOf s.list (s.low + k) →
      l2.get? m = s.list.get? m) ∧
    (∀ w : ZeroCopySlice, w.list = l2 →
      (ZeroCopySlice.readjustBounds w).low ≤ physOf s.list (s.low + k) →
      physOf s.list (s.low + k) < (ZeroCopySlice.readjustBounds w).high →
      ZeroCopySlice.getitem w
        (physOf s.list (s.low + k) - (ZeroCopySlice.readjustBounds w).low) = .ok x) := by
  obtain ⟨hp0, hp1, hps⟩ := ZeroCopySlice.setitem_writes hk h
  have hqlt : (physOf s.list (s.low + k)).toNat < s.list.length := by omega
  refine ⟨ZeroCopySlice.setitem_get_back hk h, ?_, ?_, ?_⟩
  · rw [hps]; exact List.length_set ..
  · intro m hm
    rw [hps]
    exact List.get?_set_ne x s.list (by omega)
  · intro w hw hwl hwh
    apply ZeroCopySlice.view_reads_at hp0 hwl hwh
    rw [hw, hps]
    exact List.get?_set_eq_of_lt _ hqlt

/-- Witness for claim C6: on `v = ZCS([0..9], 4, 7)`, `v.set(1, 23)` puts `23`
at absolute position `5` of the backing list, and the view `(4, 7)` over the
updated backing list reads `23` at relative position `1`. -/
theorem set_write_through_witness :
    pyGet [0,1,2,3,4,23,6,7,8,9]
      ((⟨[0,1,2,3,4,5,6,7,8,9], 4, 7⟩ : ZeroCopySlice).low + 1) = .ok 23 ∧
    ZeroCopySlice.getitem ⟨[0,1,2,3,4,23,6,7,8,9], 4, 7⟩
      (physOf [0,1,2,3,4,5,6,7,8,9]
          ((⟨[0,1,2,3,4,5,6,7,8,9], 4, 7⟩ : ZeroCopySlice).low + 1) -
        (ZeroCopySlice.readjustBounds ⟨[0,1,2,3,4,23,6,7,8,9], 4, 7⟩).low) = .ok 23 :=
  ⟨(set_write_through ⟨[0,1,2,3,4,5,6,7,8,9], 4, 7⟩ 1 23 [0,1,2,3,4,23,6,7,8,9]
      (by decide) rfl).1,
   (set_write_through ⟨[0,1,2,3,4,5,6,7,8,9], 4, 7⟩ 1 23 [0,1,2,3,4,23,6,7,8,9]
      (by decide) rfl).2.2.2 ⟨[0,1,2,3,4,23,6,7,8,9], 4, 7⟩ rfl (by decide) (by decide)⟩

/-- Claim C9: subrange extraction on a `ZeroCopyList` builds a view with the
same resolution and validation rules as direct view construction, backed by
this very container rather than a copy: the view's backing list is the
container's own list, a write through the view lands in the container's
contents, and a mutation of the container's contents at a physical position
inside the view's window is readable through the view. -/
theorem zcl_slice_is_view (l : List Int) (i j : Int) :
    ZeroCopyList.getslice l i j = ZeroCopySlice.make l i j ∧
    (∀ v, ZeroCopyList.getslice l i j = .ok v → v.list = l) ∧
    (∀ v k x l2, ZeroCopyList.getslice l i j = .ok v → 0 ≤ k →
      ZeroCopySlice.setitem v k x = .ok l2 →
      pyGet l2 (v.low + k) = .ok x) ∧
    (∀ v (p : Nat) (x : Int), ZeroCopyList.getslice l i j = .ok v →
      p < l.length →
      (ZeroCopySlice.readjustBounds ⟨l.set p x, v.low, v.high⟩).low ≤ (p : Int) →
      (p : Int) < (ZeroCopySlice.readjustBounds ⟨l.set p x, v.low, v.high⟩).high →
      ZeroCopySlice.getitem ⟨l.set p x, v.low, v.high⟩
        ((p : Int) - (ZeroCopySlice.readjustBounds ⟨l.set p x, v.low, v.high⟩).low) =
        .ok x) := by
  refine ⟨rfl, ?_, ?_, ?_⟩
  · intro v hv
    exact (ZeroCopySlice.make_ok_inv hv).1
  · intro v k x l2 hv hk hset
    exact ZeroCopySlice.setitem_get_back hk hset
  · intro v p x hv hp hlo hhi
    apply ZeroCopySlice.view_reads_at (by omega) hlo hhi
    have hcast : ((p : Int)).toNat = p := Int.toNat_natCast p
    rw [hcast]
    exact List.get?_set_eq_of_lt _ hp

/-- Witness for claim C9 on `ZeroCopyList([0..9])[4:7]`: the view's backing is
the container's list, `set(1, 23)` writes `23` to the container's position
`5`, and after the container's position `5` is set to `23` the view reads it
at relative position `1`. -/
theorem zcl_slice_is_view_witness :
    (⟨[0,1,2,3,4,5,6,7,8,9], 4, 7⟩ : ZeroCopySlice).list = [0,1,2,3,4,5,6,7,8,9] ∧
    pyGet [0,1,2,3,4,23,6,7,8,9]
      ((⟨[0,1,2,3,4,5,6,7,8,9], 4, 7⟩ : ZeroCopySlice).low + 1) = .ok 23 ∧
    ZeroCopySlice.getitem ⟨[0,1,2,3,4,5,6,7,8,9].set 5 23, 4, 7⟩
      (((5 : Nat) : Int) -
        (ZeroCopySlice.readjustBounds
          ⟨[0,1,2,3,4,5,6,7,8,9].set 5 23, 4, 7⟩).low) = .ok 23 :=
  ⟨(zcl_slice_is_view [0,1,2,3,4,5,6,7,8,9] 4 7).2.1
      ⟨[0,1,2,3,4,5,6,7,8,9], 4, 7⟩ rfl,
   (zcl_slice_is_view [0,1,2,3,4,5,6,7,8,9] 4 7).2.2.1
      ⟨[0,1,2,3,4,5,6,7,8,9], 4, 7⟩ 1 23 [0,1,2,3,4,23,6,7,8,9] rfl (by decide) rfl,
   (zcl_slice_is_view [0,1,2,3,4,5,6,7,8,9] 4 7).2.2.2
      ⟨[0,1,2,3,4,5,6,7,8,9], 4, 7⟩ 5 23 rfl (by decide) (by decide) (by decide)⟩

/-- Resolution of the `start` argument of `index`, mirroring the source's
inline `if start is None / start < 0 / else` chain over the re-adjusted
state `t`. -/
def ZeroCopySlice.resolveStart (t : ZeroCopySlice) : Option Int → Int
  | none => t.low
  | some a => if a < 0 then t.high + a else t.low + a

/-- Resolution of the `stop` argument of `index`, mirroring the source's
inline `if stop is None / stop < 0 / else` chain over the re-adjusted
state `t`. -/
def ZeroCopySlice.resolveStop (t : ZeroCopySlice) : Option Int → Int
  | none => t.high
  | some b => if b < 0 then t.high + b else t.low + b

lemma ZeroCopySlice.index_eq (s : ZeroCopySlice) (x : Int) (start stop : Option Int) :
    ZeroCopySlice.index s x start stop =
      (match (readjustBounds s).verifyBounds
          (resolveStart (readjustBounds s) start) (resolveStop (readjustBounds s) stop) with
       | .error e => .error e
       | .ok _ =>
         scanIndex (readjustBounds s).list x (resolveStart (readjustBounds s) start)
           (resolveStop (readjustBounds s) stop -
             resolveStart (readjustBounds s) start).toNat
           (resolveStart (readjustBounds s) start)) := by
  cases start <;> cases stop <;> rfl

lemma ZeroCopySlice.readjust_low_le (s : ZeroCopySlice) :
    (readjustBounds s).low ≤ (s.list.length : Int) := by
  rcases le_or_lt (s.list.length : Int) s.low with hc | hc
  · rw [ZeroCopySlice.readjust_of_ge hc]; dsimp only; omega
  · rw [ZeroCopySlice.readjust_of_lt hc]; dsimp only; omega

lemma pyGet_ok_range_inv {l : List Int} {p v : Int} (h : pyGet l p = .ok v) :
    -(l.length : Int) ≤ p ∧ p < (l.length : Int) := by
  rw [pyGet_eq] at h
  by_cases hc : 0 ≤ physOf l p ∧ physOf l p < (l.length : Int)
  · unfold physOf at hc
    split at hc <;> omega
  · rw [if_neg hc] at h
    exact absurd h (by simp)

lemma ZeroCopySlice.scanIndex_ok {l : List Int} {x bg : Int} :
    ∀ (k : Nat) (i r : Int), ZeroCopySlice.scanIndex l x bg k i = .ok r →
      i - bg ≤ r ∧ pyGet l (bg + r) = .ok x ∧
      ∀ m : Int, i - bg ≤ m → m < r → pyGet l (bg + m) ≠ .ok x := by
  intro k
  induction k with
  | zero =>
    intro i r h
    exact absurd h (by simp [ZeroCopySlice.scanIndex])
  | succ k ih =>
    intro i r h
    simp only [ZeroCopySlice.scanIndex] at h
    split at h
    · rename_i v heq
      by_cases hv : v = x
      · rw [if_pos hv] at h
        injection h with h2
        subst h2
        refine ⟨le_refl _, ?_, ?_⟩
        · have harg : bg + (i - bg) = i := by ring
          rw [harg, heq, hv]
        · intro m hm1 hm2
          exfalso
          omega
      · rw [if_neg hv] at h
        obtain ⟨h1, h2, h3⟩ := ih (i + 1) r h
        refine ⟨by omega, h2, ?_⟩
        intro m hm1 hm2
        by_cases hmi : m = i - bg
        · subst hmi
          have harg : bg + (i - bg) = i := by ring
          rw [harg, heq]
          intro hc
          injection hc with hc2
          exact hv hc2
        · exact h3 m (by omega) hm2
    · exact absurd h (by simp)

lemma ZeroCopySlice.scanIndex_notFound {l : List Int} {x bg : Int} :
    ∀ (k : Nat) (i : Int), ZeroCopySlice.scanIndex l x bg k i = .error .valueError →
      ∀ p : Int, i ≤ p → p < i + k → pyGet l p ≠ .ok x := by
  intro k
  induction k with
  | zero =>
    intro i h p hp1 hp2
    exfalso
    omega
  | succ k ih =>
    intro i h p hp1 hp2
    simp only [ZeroCopySlice.scanIndex] at h
    split at h
    · rename_i v heq
      by_cases hv : v = x
      · rw [if_pos hv] at h
        exact absurd h (by simp)
      · rw [if_neg hv] at h
        by_cases hpi : p = i
        · subst hpi
          rw [heq]
          intro hc
          injection hc with hc2
          exact hv hc2
        · exact ih (i + 1) h p (by omega) (by omega)
    · rename_i e heq
      injection h with h2
      exact absurd (h2 ▸ heq) (pyGet_ne_valueError l i)

lemma ZeroCopySlice.scanContains_true_scanIndex {l : List Int} {x bg : Int} :
    ∀ (k : Nat) (i : Int), ZeroCopySlice.scanContains l x k i = .ok true →
      ∃ r, ZeroCopySlice.scanIndex l x bg k i = .ok r := by
  intro k
  induction k with
  | zero =>
    intro i h
    exact absurd h (by simp [ZeroCopySlice.scanContains])
  | succ k ih =>
    intro i h
    simp only [ZeroCopySlice.scanContains] at h
    split at h
    · rename_i v heq
      by_cases hv : v = x
      · refine ⟨i - bg, ?_⟩
        simp only [ZeroCopySlice.scanIndex, heq]
        rw [if_pos hv]
      · rw [if_neg hv] at h
        obtain ⟨r, hr⟩ := ih (i + 1) h
        refine ⟨r, ?_⟩
        simp only [ZeroCopySlice.scanIndex, heq]
        rw [if_neg hv]
        exact hr
    · exact absurd h (by simp)

lemma ZeroCopySlice.scanContains_ok_first {l : List Int} {x : Int} {k : Nat} {i : Int}
    {b : Bool} (h : ZeroCopySlice.scanContains l x (k + 1) i = .ok b) :
    ∃ v, pyGet l i = .ok v := by
  simp only [ZeroCopySlice.scanContains] at h
  split at h
  · rename_i v heq
    exact ⟨v, heq⟩
  · exact absurd h (by simp)

lemma ZeroCopySlice.scanCount_ok_first {l : List Int} {x : Int} {k : Nat} {i : Int}
    {acc n : Nat} (h : ZeroCopySlice.scanCount l x (k + 1) i acc = .ok n) :
    ∃ v, pyGet l i = .ok v := by
  simp only [ZeroCopySlice.scanCount] at h
  split at h
  · rename_i v heq
    exact ⟨v, heq⟩
  · exact absurd h (by simp)

lemma ZeroCopySlice.scanCount_total {l : List Int} {x : Int} :
    ∀ (k : Nat) (i : Int) (acc : Nat), -(l.length : Int) ≤ i →
      i + k ≤ (l.length : Int) →
      ∃ n, ZeroCopySlice.scanCount l x k i acc = .ok n := by
  intro k
  induction k with
  | zero =>
    intro i acc h1 h2
    exact ⟨acc, by simp [ZeroCopySlice.scanCount]⟩
  | succ k ih =>
    intro i acc h1 h2
    obtain ⟨v, hv⟩ := pyGet_ok_of_range h1 (by omega)
    obtain ⟨n, hn⟩ := ih (i + 1) (if v = x then acc + 1 else acc) (by omega) (by omega)
    refine ⟨n, ?_⟩
    simp only [ZeroCopySlice.scanCount, hv]
    exact hn

lemma ZeroCopySlice.scanContains_total {l : List Int} {x : Int} :
    ∀ (k : Nat) (i : Int), -(l.length : Int) ≤ i →
      i + k ≤ (l.length : Int) →
      ∃ b, ZeroCopySlice.scanContains l x k i = .ok b := by
  intro k
  induction k with
  | zero =>
    intro i h1 h2
    exact ⟨false, by simp [ZeroCopySlice.scanContains]⟩
  | succ k ih =>
    intro i h1 h2
    obtain ⟨v, hv⟩ := pyGet_ok_of_range h1 (by omega)
    by_cases hx : v = x
    · refine ⟨true, ?_⟩
      simp only [ZeroCopySlice.scanContains, hv]
      rw [if_pos hx]
    · obtain ⟨b, hb⟩ := ih (i + 1) (by omega) (by omega)
      refine ⟨b, ?_⟩
      simp only [ZeroCopySlice.scanContains, hv]
      rw [if_neg hx]
      exact hb

lemma ZeroCopySlice.scanContains_char {l : List Int} {x : Int} :
    ∀ (k : Nat) (i : Int) (b : Bool), ZeroCopySlice.scanContains l x k i = .ok b →
      (b = true ↔ ∃ m : Nat, m < k ∧ elemEq l (i + (m : Int)) x = true) := by
  intro k
  induction k with
  | zero =>
    intro i b h
    simp only [ZeroCopySlice.scanContains] at h
    injection h with h2
    subst h2
    simp
  | succ k ih =>
    intro i b h
    simp only [ZeroCopySlice.scanContains] at h
    split at h
    · rename_i v heq
      by_cases hv : v = x
      · rw [if_pos hv] at h
        injection h with h2
        subst h2
        refine ⟨fun _ => ⟨0, by omega, ?_⟩, fun _ => rfl⟩
        unfold elemEq
        rw [show i + ((0 : Nat) : Int) = i by simp, heq]
        simp [hv]
      · rw [if_neg hv] at h
        rw [ih (i + 1) b h]
        constructor
        · rintro ⟨m, hm, hme⟩
          refine ⟨m + 1, by omega, ?_⟩
          have harg : i + ((m + 1 : Nat) : Int) = i + 1 + (m : Int) := by push_cast; ring
          rw [harg]
          exact hme
        · rintro ⟨m, hm, hme⟩
          cases m with
          | zero =>
            exfalso
            unfold elemEq at hme
            rw [show i + ((0 : Nat) : Int) = i by simp, heq] at hme
            simp at hme
            exact hv hme
          | succ m2 =>
            refine ⟨m2, by omega, ?_⟩
            have harg : i + ((m2 + 1 : Nat) : Int) = i + 1 + (m2 : Int) := by push_cast; ring
            rw [harg] at hme
            exact hme
    · exact absurd h (by simp)

lemma ZeroCopySlice.scanCount_char {l : List Int} {x : Int} :
    ∀ (k : Nat) (i : Int) (acc n : Nat), ZeroCopySlice.scanCount l x k i acc = .ok n →
      n = acc + (List.range k).countP (fun m : Nat => elemEq l (i + (m : Int)) x) := by
  intro k
  induction k with
  | zero =>
    intro i acc n h
    simp only [ZeroCopySlice.scanCount] at h
    injection h with h2
    subst h2
    simp
  | succ k ih =>
    intro i acc n h
    simp only [ZeroCopySlice.scanCount] at h
    split at h
    · rename_i v heq
      have hstep := ih (i + 1) (if v = x then acc + 1 else acc) n h
      rw [List.range_succ_eq_map, List.countP_cons, List.countP_map]
      have hcomp : ((fun m : Nat => elemEq l (i + (m : Int)) x) ∘ Nat.succ) =
          (fun m : Nat => elemEq l (i + 1 + (m : Int)) x) := by
        funext m
        simp only [Function.comp]
        congr 1
        push_cast
        ring
      rw [hcomp]
      have h0 : elemEq l (i + ((0 : Nat) : Int)) x = (v == x) := by
        unfold elemEq
        rw [show i + ((0 : Nat) : Int) = i by simp, heq]
      rw [h0]
      by_cases hv : v = x
      · rw [if_pos hv] at hstep
        rw [if_pos (by simp [hv])]
        omega
      · rw [if_neg hv] at hstep
        rw [if_neg (by simp [hv])]
        omega
    · exact absurd h (by simp)

/-- Claim C7: search — `index(x, start, stop)` resolves `start` relative to
`low` when non-negative and relative to `high` when negative, defaulting to
the full window `[low, high)`, validates the resolved range with the same rule
as `subview` (failing with `IndexError`-kind otherwise), scans left to right
and returns the offset of the first element equal to `x` counted from the
resolved start; when no element of the range matches it fails with the
not-found (`ValueError`)-kind error; in particular for `v = View([0..9],4,7)`,
`v.index(5) = 1` and `v.index(8)` fails with not-found. -/
theorem index_spec (s : ZeroCopySlice) (x : Int) (start stop : Option Int) :
    (¬((ZeroCopySlice.readjustBounds s).low ≤
          ZeroCopySlice.resolveStart (ZeroCopySlice.readjustBounds s) start ∧
        ZeroCopySlice.resolveStart (ZeroCopySlice.readjustBounds s) start <
          (ZeroCopySlice.readjustBounds s).high ∧
        (ZeroCopySlice.readjustBounds s).low ≤
          ZeroCopySlice.resolveStop (ZeroCopySlice.readjustBounds s) stop ∧
        ZeroCopySlice.resolveStop (ZeroCopySlice.readjustBounds s) stop ≤
          (ZeroCopySlice.readjustBounds s).high) →
      ZeroCopySlice.index s x start stop = .error .indexError) ∧
    (∀ r, ZeroCopySlice.index s x start stop = .ok r →
      0 ≤ r ∧
      pyGet (ZeroCopySlice.readjustBounds s).list
        (ZeroCopySlice.resolveStart (ZeroCopySlice.readjustBounds s) start + r) =
        .ok x ∧
      ∀ m : Int, 0 ≤ m → m < r →
        pyGet (ZeroCopySlice.readjustBounds s).list
          (ZeroCopySlice.resolveStart (ZeroCopySlice.readjustBounds s) start + m) ≠
          .ok x) ∧
    (ZeroCopySlice.index s x start stop = .error .valueError →
      ∀ p : Int, ZeroCopySlice.resolveStart (ZeroCopySlice.readjustBounds s) start ≤ p →
        p < ZeroCopySlice.resolveStop (ZeroCopySlice.readjustBounds s) stop →
        pyGet (ZeroCopySlice.readjustBounds s).list p ≠ .ok x) ∧
    ZeroCopySlice.index ⟨[0,1,2,3,4,5,6,7,8,9], 4, 7⟩ 5 none none = .ok 1 ∧
    ZeroCopySlice.index ⟨[0,1,2,3,4,5,6,7,8,9], 4, 7⟩ 8 none none =
      .error .valueError := by
  refine ⟨?_, ?_, ?_, rfl, rfl⟩
  · intro hc
    rw [ZeroCopySlice.index_eq, ZeroCopySlice.verifyBounds_neg hc]
  · intro r h
    by_cases hvc : (ZeroCopySlice.readjustBounds s).low ≤
          ZeroCopySlice.resolveStart (ZeroCopySlice.readjustBounds s) start ∧
        ZeroCopySlice.resolveStart (ZeroCopySlice.readjustBounds s) start <
          (ZeroCopySlice.readjustBounds s).high ∧
        (ZeroCopySlice.readjustBounds s).low ≤
          ZeroCopySlice.resolveStop (ZeroCopySlice.readjustBounds s) stop ∧
        ZeroCopySlice.resolveStop (ZeroCopySlice.readjustBounds s) stop ≤
          (ZeroCopySlice.readjustBounds s).high
    · rw [ZeroCopySlice.index_eq, ZeroCopySlice.verifyBounds_pos hvc] at h
      replace h : ZeroCopySlice.scanIndex (ZeroCopySlice.readjustBounds s).list x
          (ZeroCopySlice.resolveStart (ZeroCopySlice.readjustBounds s) start)
          (ZeroCopySlice.resolveStop (ZeroCopySlice.readjustBounds s) stop -
            ZeroCopySlice.resolveStart (ZeroCopySlice.readjustBounds s) start).toNat
          (ZeroCopySlice.resolveStart (ZeroCopySlice.readjustBounds s) start) =
          .ok r := h
      obtain ⟨h1, h2, h3⟩ := ZeroCopySlice.scanIndex_ok _ _ r h
      refine ⟨by omega, h2, ?_⟩
      intro m hm0 hmr
      exact h3 m (by omega) hmr
    · rw [ZeroCopySlice.index_eq, ZeroCopySlice.verifyBounds_neg hvc] at h
      exact absurd h (by simp)
  · intro h p hp1 hp2
    by_cases hvc : (ZeroCopySlice.readjustBounds s).low ≤
          ZeroCopySlice.resolveStart (ZeroCopySlice.readjustBounds s) start ∧
        ZeroCopySlice.resolveStart (ZeroCopySlice.readjustBounds s) start <
          (ZeroCopySlice.readjustBounds s).high ∧
        (ZeroCopySlice.readjustBounds s).low ≤
          ZeroCopySlice.resolveStop (ZeroCopySlice.readjustBounds s) stop ∧
        ZeroCopySlice.resolveStop (ZeroCopySlice.readjustBounds s) stop ≤
          (ZeroCopySlice.readjustBounds s).high
    · rw [ZeroCopySlice.index_eq, ZeroCopySlice.verifyBounds_pos hvc] at h
      replace h : ZeroCopySlice.scanIndex (ZeroCopySlice.readjustBounds s).list x
          (ZeroCopySlice.resolveStart (ZeroCopySlice.readjustBounds s) start)
          (ZeroCopySlice.resolveStop (ZeroCopySlice.readjustBounds s) stop -
            ZeroCopySlice.resolveStart (ZeroCopySlice.readjustBounds s) start).toNat
          (ZeroCopySlice.resolveStart (ZeroCopySlice.readjustBounds s) start) =
          .error .valueError := h
      refine ZeroCopySlice.scanIndex_notFound _ _ h p hp1 ?_
      have hsl := Int.self_le_toNat
        (ZeroCopySlice.resolveStop (ZeroCopySlice.readjustBounds s) stop -
          ZeroCopySlice.resolveStart (ZeroCopySlice.readjustBounds s) start)
      omega
    · rw [ZeroCopySlice.index_eq, ZeroCopySlice.verifyBounds_neg hvc] at h
      injection h with h2
      exact absurd h2 (by decide)

/-- Witness for claim C7: on `View([0..9], 4, 7)`, `index(5)` returns offset
`1`, so the backing element at the resolved start plus `1` is `5`. -/
theorem index_spec_witness :
    (0 : Int) ≤ 1 ∧
    pyGet (ZeroCopySlice.readjustBounds ⟨[0,1,2,3,4,5,6,7,8,9], 4, 7⟩).list
      (ZeroCopySlice.resolveStart
          (ZeroCopySlice.readjustBounds ⟨[0,1,2,3,4,5,6,7,8,9], 4, 7⟩) none + 1) =
      .ok 5 := by
  have h := (index_spec ⟨[0,1,2,3,4,5,6,7,8,9], 4, 7⟩ 5 none none).2.1 1 rfl
  exact ⟨h.1, h.2.1⟩

/-- Claim C10: coherence of the query operations — against the same backing
state, `contains x` returns true exactly when `count x ≥ 1`; a successful
`count x` equals the number of window offsets whose backing element equals
`x`; and whenever `contains x` is true, `index x` with default bounds
succeeds. -/
theorem query_coherence (s : ZeroCopySlice) (x : Int) :
    (ZeroCopySlice.contains s x = .ok true ↔
      ∃ n, ZeroCopySlice.count s x = .ok n ∧ 1 ≤ n) ∧
    (∀ n, ZeroCopySlice.count s x = .ok n →
      n = (List.range ((ZeroCopySlice.readjustBounds s).high -
              (ZeroCopySlice.readjustBounds s).low).toNat).countP
            (fun m : Nat => elemEq (ZeroCopySlice.readjustBounds s).list
              ((ZeroCopySlice.readjustBounds s).low + (m : Int)) x)) ∧
    (ZeroCopySlice.contains s x = .ok true →
      ∃ r, ZeroCopySlice.index s x none none = .ok r) := by
  have hconteq : ZeroCopySlice.contains s x =
      ZeroCopySlice.scanContains (ZeroCopySlice.readjustBounds s).list x
        ((ZeroCopySlice.readjustBounds s).high -
          (ZeroCopySlice.readjustBounds s).low).toNat
        (ZeroCopySlice.readjustBounds s).low := rfl
  have hcnteq : ZeroCopySlice.count s x =
      ZeroCopySlice.scanCount (ZeroCopySlice.readjustBounds s).list x
        ((ZeroCopySlice.readjustBounds s).high -
          (ZeroCopySlice.readjustBounds s).low).toNat
        (ZeroCopySlice.readjustBounds s).low 0 := rfl
  have hhle : (ZeroCopySlice.readjustBounds s).high ≤ (s.list.length : Int) :=
    ZeroCopySlice.readjust_high_le s
  have hlle : (ZeroCopySlice.readjustBounds s).low ≤ (s.list.length : Int) :=
    ZeroCopySlice.readjust_low_le s
  have hLs : (((ZeroCopySlice.readjustBounds s).list.length : Nat) : Int) =
      (s.list.length : Int) := by rw [ZeroCopySlice.readjust_list]
  refine ⟨⟨?_, ?_⟩, ?_, ?_⟩
  · intro h
    rw [hconteq] at h
    rw [hcnteq]
    cases hKe : ((ZeroCopySlice.readjustBounds s).high -
        (ZeroCopySlice.readjustBounds s).low).toNat with
    | zero =>
      rw [hKe] at h
      exact absurd h (by simp [ZeroCopySlice.scanContains])
    | succ k2 =>
      rw [hKe] at h
      obtain ⟨v, hv⟩ := ZeroCopySlice.scanContains_ok_first h
      obtain ⟨hb1, hb2⟩ := pyGet_ok_range_inv hv
      obtain ⟨n, hn⟩ := ZeroCopySlice.scanCount_total (x := x) (k2 + 1)
        (ZeroCopySlice.readjustBounds s).low 0 hb1 (by omega)
      refine ⟨n, ?_, ?_⟩
      · exact hn
      · have hchar := ZeroCopySlice.scanCount_char (k2 + 1)
          (ZeroCopySlice.readjustBounds s).low 0 n hn
        have hcc := ZeroCopySlice.scanContains_char (k2 + 1)
          (ZeroCopySlice.readjustBounds s).low true h
        obtain ⟨m, hm, hme⟩ := hcc.mp rfl
        have hpos : 0 < (List.range (k2 + 1)).countP
            (fun m : Nat => elemEq (ZeroCopySlice.readjustBounds s).list
              ((ZeroCopySlice.readjustBounds s).low + (m : Int)) x) := by
          rw [List.countP_pos]
          exact ⟨m, List.mem_range.mpr hm, hme⟩
        omega
  · rintro ⟨n, hn, hn1⟩
    rw [hcnteq] at hn
    rw [hconteq]
    cases hKe : ((ZeroCopySlice.readjustBounds s).high -
        (ZeroCopySlice.readjustBounds s).low).toNat with
    | zero =>
      rw [hKe] at hn
      simp only [ZeroCopySlice.scanCount] at hn
      injection hn with h2
      omega
    | succ k2 =>
      rw [hKe] at hn
      obtain ⟨v, hv⟩ := ZeroCopySlice.scanCount_ok_first hn
      obtain ⟨hb1, hb2⟩ := pyGet_ok_range_inv hv
      obtain ⟨b, hb⟩ := ZeroCopySlice.scanContains_total (x := x) (k2 + 1)
        (ZeroCopySlice.readjustBounds s).low hb1 (by omega)
      have hchar := ZeroCopySlice.scanCount_char (k2 + 1)
        (ZeroCopySlice.readjustBounds s).low 0 n hn
      have hcc := ZeroCopySlice.scanContains_char (k2 + 1)
        (ZeroCopySlice.readjustBounds s).low b hb
      have hpos : 0 < (List.range (k2 + 1)).countP
          (fun m : Nat => elemEq (ZeroCopySlice.readjustBounds s).list
            ((ZeroCopySlice.readjustBounds s).low + (m : Int)) x) := by omega
      obtain ⟨m, hmr, hme⟩ := List.countP_pos.mp hpos
      have hbt : b = true := hcc.mpr ⟨m, List.mem_range.mp hmr, hme⟩
      rw [← hbt]
      exact hb
  · intro n hn
    rw [hcnteq] at hn
    have hchar := ZeroCopySlice.scanCount_char _ _ 0 n hn
    omega
  · intro h
    rw [hconteq] at h
    cases hKe : ((ZeroCopySlice.readjustBounds s).high -
        (ZeroCopySlice.readjustBounds s).low).toNat with
    | zero =>
      rw [hKe] at h
      exact absurd h (by simp [ZeroCopySlice.scanContains])
    | succ k2 =>
      rw [hKe] at h
      have hlh : (ZeroCopySlice.readjustBounds s).low <
          (ZeroCopySlice.readjustBounds s).high := by omega
      have hidx : ZeroCopySlice.index s x none none =
          (match (ZeroCopySlice.readjustBounds s).verifyBounds
              (ZeroCopySlice.readjustBounds s).low
              (ZeroCopySlice.readjustBounds s).high with
           | .error e => .error e
           | .ok _ =>
             ZeroCopySlice.scanIndex (ZeroCopySlice.readjustBounds s).list x
               (ZeroCopySlice.readjustBounds s).low
               ((ZeroCopySlice.readjustBounds s).high -
                 (ZeroCopySlice.readjustBounds s).low).toNat
               (ZeroCopySlice.readjustBounds s).low) := rfl
      rw [hidx, ZeroCopySlice.verifyBounds_pos ⟨le_refl _, hlh, by omega, le_refl _⟩]
      rw [hKe]
      exact ZeroCopySlice.scanContains_true_scanIndex (k2 + 1)
        (ZeroCopySlice.readjustBounds s).low h

/-- Witness for claim C10 on `View([0..9], 4, 7)` and `x = 5`: membership
holds, so `count` is at least `1` and `index` with default bounds succeeds. -/
theorem query_coherence_witness :
    (∃ n, ZeroCopySlice.count ⟨[0,1,2,3,4,5,6,7,8,9], 4, 7⟩ 5 = .ok n ∧ 1 ≤ n) ∧
    (∃ r, ZeroCopySlice.index ⟨[0,1,2,3,4,5,6,7,8,9], 4, 7⟩ 5 none none = .ok r) :=
  ⟨(query_coherence ⟨[0,1,2,3,4,5,6,7,8,9], 4, 7⟩ 5).1.mp rfl,
   (query_coherence ⟨[0,1,2,3,4,5,6,7,8,9], 4, 7⟩ 5).2.2 rfl⟩
